import Mathlib

/-!
Verification of the Arbor private-airdrop batch engine.

The definitions below are a shallow embedding of `src/lib/airdrop.ts`
(class `PrivateAirdrop`), of the earlier variant of the same class, of the
`ensureTokenPool` wrapper from `src/lib/compressed-account`, and of the
validation routine `PrivateAirdrop.validate`.  Opaque chain-level values
(public keys, mints, RPC handles) are modelled as natural numbers; the two
transfer strategies (`sendStandardTransfer`, `transferCompressed`) are
external network calls and are modelled as per-recipient oracles returning
either a signature or the thrown error message.  Thrown JS exceptions are
modelled with `Except`.
-/

namespace Arbor

/-- Opaque handle standing for the Light Protocol `Rpc` connection object. -/
abbrev Rpc := Nat

/-- `AirdropRecipient` (src/types.ts): `address` is an opaque public key,
`amount` a base-unit token quantity (`bigint`, never negative). -/
structure AirdropRecipient where
  address : Nat
  amount : Nat
deriving DecidableEq

/-- `AirdropConfig` (src/types.ts).  `batchSize?: number` is modelled as
`Option Int`: it may be absent, zero, or negative before validation.
`mint` and `authorityKeypair` are opaque handles. -/
structure AirdropConfig where
  mint : Nat
  authorityKeypair : Nat
  recipients : List AirdropRecipient
  batchSize : Option Int
  useCompression : Bool
deriving DecidableEq

/-- `AirdropResult` (src/types.ts): on failure the source stores
`signature: ''` and `error: <message>`; on success the `error` field is
absent, modelled as `none`. -/
structure AirdropResult where
  signature : String
  recipient : Nat
  amount : Nat
  success : Bool
  error : Option String
deriving DecidableEq

/-- A transfer strategy call (`sendStandardTransfer` or `transferCompressed`):
given one recipient it either returns a transaction signature or throws an
error message. -/
def TransferFn : Type := AirdropRecipient → Except String String

/-- One iteration of the per-recipient try/catch in `processStandardBatch` /
`processCompressedBatch` (airdrop.ts lines 95-121 and 157-186): a successful
call is recorded with its signature, a thrown error as a failed outcome with
empty signature and the error message. -/
def outcomeOf (r : AirdropRecipient) (res : Except String String) : AirdropResult :=
  match res with
  | .ok sig =>
      { signature := sig, recipient := r.address, amount := r.amount
        success := true, error := none }
  | .error e =>
      { signature := "", recipient := r.address, amount := r.amount
        success := false, error := some e }

/-- `const batchSize = this.config.batchSize || 10` (airdrop.ts line 47):
in JS both `undefined` and `0` are falsy, so either yields the default 10;
any other value (including a negative one) is kept. -/
def effectiveBatchSize (c : AirdropConfig) : Int :=
  match c.batchSize with
  | none => 10
  | some b => if b = 0 then 10 else b

/-- The batching loop `for (let i = 0; i < N; i += B) slice(i, i + B)`
(airdrop.ts lines 54-63), written with an explicit fuel argument so that the
recursion is structural.  For `1 ≤ B` a fuel of `l.length` is always enough;
for `B = 0` the JS loop would not terminate, a case that is unreachable
because `effectiveBatchSize` never yields `0`. -/
def chunksGo (B : Nat) : Nat → List AirdropRecipient → List (List AirdropRecipient)
  | _, [] => []
  | 0, _ :: _ => []
  | fuel + 1, x :: xs => ((x :: xs).take B) :: chunksGo B fuel ((x :: xs).drop B)

/-- The list of consecutive batches of size `B` produced by the loop in
`execute` (airdrop.ts lines 54-63). -/
def chunksOf (B : Nat) (l : List AirdropRecipient) : List (List AirdropRecipient) :=
  chunksGo B l.length l

/-- The `PrivateAirdrop` object state after construction: its config and the
optional Light Protocol RPC handle.  (The `Connection` handle is opaque I/O
plumbing never inspected by the batch logic and is omitted.) -/
structure PrivateAirdrop where
  config : AirdropConfig
  lightRpc : Option Rpc

/-- The constructor (airdrop.ts lines 31-40): throws when compression is
requested without a Light Protocol RPC handle. -/
def mkPrivateAirdrop (config : AirdropConfig) (lightRpc : Option Rpc) :
    Except String PrivateAirdrop :=
  if config.useCompression && lightRpc.isNone then
    .error "Light Protocol RPC is required when useCompression is true"
  else
    .ok { config := config, lightRpc := lightRpc }

/-- `processStandardBatch` (airdrop.ts lines 90-124): one outcome per
recipient, in order; per-recipient throws are caught inside the loop. -/
def processStandardBatch (tD : TransferFn) (batch : List AirdropRecipient) :
    List AirdropResult :=
  batch.map (fun r => outcomeOf r (tD r))

/-- `processCompressedBatch` (airdrop.ts lines 130-193): throws when
`lightRpc` is absent, otherwise one outcome per recipient in order (the
`ensureTokenPool` call at lines 146-154 sits in a try/catch whose failure is
only logged, so it never affects the returned outcomes). -/
def processCompressedBatch (lightRpc : Option Rpc) (tC : TransferFn)
    (batch : List AirdropRecipient) : Except String (List AirdropResult) :=
  match lightRpc with
  | none => .error "Light RPC not initialized for compressed transfers"
  | some _ => .ok (batch.map (fun r => outcomeOf r (tC r)))

/-- `processBatch` (airdrop.ts lines 74-85): mode dispatch, fixed by the
config for the whole campaign. -/
def processBatch (a : PrivateAirdrop) (tD tC : TransferFn)
    (batch : List AirdropRecipient) : Except String (List AirdropResult) :=
  if a.config.useCompression then
    processCompressedBatch a.lightRpc tC batch
  else
    .ok (processStandardBatch tD batch)

/-- The batch loop body of `execute` (airdrop.ts lines 54-63): batch results
are appended in order; an exception from `processBatch` propagates out of
`execute` (discarding accumulated results), which `Except` models by
short-circuiting. -/
def runBatches (a : PrivateAirdrop) (tD tC : TransferFn) :
    List (List AirdropRecipient) → Except String (List AirdropResult)
  | [] => .ok []
  | b :: bs =>
    match processBatch a tD tC b with
    | .error e => .error e
    | .ok rs =>
      match runBatches a tD tC bs with
      | .error e => .error e
      | .ok rest => .ok (rs ++ rest)

/-- `execute` (airdrop.ts lines 45-69). -/
def execute (a : PrivateAirdrop) (tD tC : TransferFn) :
    Except String (List AirdropResult) :=
  runBatches a tD tC (chunksOf (effectiveBatchSize a.config).toNat a.config.recipients)

/-- The transfer strategy actually driving the outcomes of a run: the
compressed oracle when `useCompression` is set, the direct one otherwise. -/
def activeTransfer (a : PrivateAirdrop) (tD tC : TransferFn) : TransferFn :=
  if a.config.useCompression then tC else tD

/-- The per-recipient outcome list a successful run produces: one outcome per
recipient, in input order, each determined by that recipient's own transfer
result. -/
def expectedResults (c : AirdropConfig) (t : TransferFn) : List AirdropResult :=
  c.recipients.map (fun r => outcomeOf r (t r))

/-- The earlier variant's `processCompressedBatch` (src/unnamed/part_004
lines 121-136): after logging, it silently falls back to the standard
transfer path. -/
def processCompressedBatchV1 (tD : TransferFn) (batch : List AirdropRecipient) :
    List AirdropResult :=
  processStandardBatch tD batch

/-- The earlier variant's `processBatch` (part_004 lines 65-76). -/
def processBatchV1 (c : AirdropConfig) (tD : TransferFn)
    (batch : List AirdropRecipient) : List AirdropResult :=
  if c.useCompression then processCompressedBatchV1 tD batch
  else processStandardBatch tD batch

/-- The earlier variant's batch loop (part_004 lines 45-54); it can never
throw, since both of its batch paths catch per-recipient errors. -/
def runBatchesV1 (c : AirdropConfig) (tD : TransferFn) :
    List (List AirdropRecipient) → List AirdropResult
  | [] => []
  | b :: bs => processBatchV1 c tD b ++ runBatchesV1 c tD bs

/-- The earlier variant's `execute` (part_004 lines 36-60); the batching and
defaulting logic is identical to the current one. -/
def executeV1 (c : AirdropConfig) (tD : TransferFn) : List AirdropResult :=
  runBatchesV1 c tD (chunksOf (effectiveBatchSize c).toNat c.recipients)

/-- The distinct throw sites of `PrivateAirdrop.validate`
(airdrop.ts lines 250-268), named as in the spec. -/
inductive ConfigError where
  | emptyRecipients
  | invalidBatchSize
  | duplicateRecipient (address : Nat)
deriving DecidableEq

/-- The condition of `if (config.batchSize && config.batchSize < 1)`
(airdrop.ts line 255): in JS the first conjunct is the number itself, so the
check fires only when `batchSize` is defined, nonzero, and below 1. -/
def batchSizeCheckFails (b : Option Int) : Bool :=
  match b with
  | none => false
  | some b => b != 0 && b < 1

/-- The duplicate scan of `validate` (airdrop.ts lines 260-267): first
duplicate address in sequence order wins.  Addresses are opaque keys, so the
`toBase58()` serialisation is the identity here. -/
def findDuplicate (seen : List Nat) : List Nat → Option Nat
  | [] => none
  | a :: rest => if a ∈ seen then some a else findDuplicate (a :: seen) rest

/-- `PrivateAirdrop.validate` (airdrop.ts lines 250-268). -/
def validate (c : AirdropConfig) : Except ConfigError Unit :=
  if c.recipients.length = 0 then .error .emptyRecipients
  else if batchSizeCheckFails c.batchSize then .error .invalidBatchSize
  else
    match findDuplicate [] (c.recipients.map (fun r => r.address)) with
    | some a => .error (.duplicateRecipient a)
    | none => .ok ()

/-- Contiguous substring test on character lists: `sub` is a prefix of some
suffix of the scanned list. -/
def charsInclude (sub : List Char) : List Char → Bool
  | [] => sub.isEmpty
  | c :: rest => sub.isPrefixOf (c :: rest) || charsInclude sub rest

/-- JS `String.prototype.includes`: contiguous substring test. -/
def stringIncludes (s sub : String) : Bool :=
  charsInclude sub.data s.data

/-- `ensureTokenPool`, src/unnamed/part_005 lines 147-167, as a function of
the backend call's result: a successful `createTokenPool` returns its
signature; a thrown error whose message includes "already in use" is treated
as success (`null`); any other error is rethrown wrapped. -/
def ensureTokenPool (createResult : Except String String) :
    Except String (Option String) :=
  match createResult with
  | .ok sig => .ok (some sig)
  | .error e =>
      if stringIncludes e "already in use" then .ok none
      else .error ("Failed to create token pool: " ++ e)

/-- Modelled from the spec: the external `createTokenPool` call of the
CompressionBackend capability (spec section 6), which is library code outside
this repository.  Its state is the set of mints that already have a pool;
creating a pool for a mint that has one throws an error whose message
includes "already in use", otherwise the pool is recorded and a signature
returned. -/
def createTokenPoolBackend (pools : List Nat) (mint : Nat) :
    Except String String × List Nat :=
  if mint ∈ pools then (.error "account already in use", pools)
  else (.ok "poolCreationSignature", mint :: pools)

/-- One `ensureTokenPool` call run against the modelled backend, returning
the caller-visible result and the new backend state. -/
def ensureTokenPoolRun (pools : List Nat) (mint : Nat) :
    Except String (Option String) × List Nat :=
  let res := createTokenPoolBackend pools mint
  (ensureTokenPool res.1, res.2)

/-- The suspension points (`await`s) of one `execute` run: a per-recipient
transfer attempt (account resolution, submission and confirmation as one
opaque unit), the per-batch token-pool check of the compressed path, and the
two fixed `delay` calls. -/
inductive TraceEvent where
  | transferAttempt (address : Nat) (amount : Nat)
  | ensurePool (mint : Nat)
  | delayMs (ms : Nat)
deriving DecidableEq

/-- Whether an event is a `delay` suspension. -/
def TraceEvent.isDelay : TraceEvent → Bool
  | .delayMs _ => true
  | _ => false

/-- Awaits of the `processStandardBatch` loop (airdrop.ts lines 95-121): one
transfer attempt per recipient and nothing else. -/
def standardBatchTrace (batch : List AirdropRecipient) : List TraceEvent :=
  batch.map (fun r => .transferAttempt r.address r.amount)

/-- Awaits of the per-recipient loop of `processCompressedBatch`
(airdrop.ts lines 157-190): each recipient's transfer attempt is followed by
`await this.delay(500)`, executed on success and on failure alike. -/
def compressedRecipientsTrace : List AirdropRecipient → List TraceEvent
  | [] => []
  | r :: rest =>
    TraceEvent.transferAttempt r.address r.amount ::
      TraceEvent.delayMs 500 :: compressedRecipientsTrace rest

/-- Awaits of `processCompressedBatch` (airdrop.ts lines 130-193): the
token-pool check once per batch, then the per-recipient loop. -/
def compressedBatchTrace (mint : Nat) (batch : List AirdropRecipient) :
    List TraceEvent :=
  TraceEvent.ensurePool mint :: compressedRecipientsTrace batch

/-- Awaits of `processBatch` for one batch, by mode. -/
def batchTrace (c : AirdropConfig) (batch : List AirdropRecipient) :
    List TraceEvent :=
  if c.useCompression then compressedBatchTrace c.mint batch
  else standardBatchTrace batch

/-- Awaits of the batch loop of `execute` (airdrop.ts lines 54-63):
`await this.delay(1000)` runs after a batch exactly when `i + B < N`,
i.e. when further batches remain. -/
def batchesTrace (c : AirdropConfig) : List (List AirdropRecipient) → List TraceEvent
  | [] => []
  | [b] => batchTrace c b
  | b :: b2 :: bs => batchTrace c b ++ TraceEvent.delayMs 1000 :: batchesTrace c (b2 :: bs)

/-- The suspension-point trace of one `execute` run on a successfully
constructed `PrivateAirdrop` (so the RPC handle is present whenever
compression is on).  The trace does not depend on the oracle results: a
failing transfer is still awaited, and the 500ms pacing delay of the
compressed path runs regardless of the outcome. -/
def executeTrace (c : AirdropConfig) : List TraceEvent :=
  batchesTrace c (chunksOf (effectiveBatchSize c).toNat c.recipients)

/-! Concrete inputs used by the witness and counterexample theorems below. -/

/-- An oracle whose every transfer succeeds. -/
def tAllOk : TransferFn := fun _ => Except.ok "sigOk"

/-- An oracle failing exactly for the recipient at address 2. -/
def tFailAtTwo : TransferFn := fun r =>
  if r.address = 2 then Except.error "InsufficientFunds" else Except.ok "sigA"

/-- A direct-mode campaign: three distinct recipients, batch size 2. -/
def cfgDirect : AirdropConfig :=
  { mint := 0, authorityKeypair := 0
    recipients := [⟨1, 5⟩, ⟨2, 7⟩, ⟨3, 9⟩]
    batchSize := some 2, useCompression := false }

/-- A direct-mode campaign with five recipients and batch size 2. -/
def cfgFive : AirdropConfig :=
  { mint := 0, authorityKeypair := 0
    recipients := [⟨1, 5⟩, ⟨2, 7⟩, ⟨3, 9⟩, ⟨4, 11⟩, ⟨5, 13⟩]
    batchSize := some 2, useCompression := false }

/-- A compressed-mode campaign with one recipient. -/
def cfgCompressedOne : AirdropConfig :=
  { mint := 7, authorityKeypair := 0
    recipients := [⟨1, 5⟩]
    batchSize := some 1, useCompression := true }

/-- A direct-mode campaign with no explicit batch size. -/
def cfgNoBatchSize : AirdropConfig :=
  { mint := 0, authorityKeypair := 0
    recipients := [⟨1, 5⟩, ⟨2, 7⟩]
    batchSize := none, useCompression := false }

/-- A campaign whose batch size is the falsy value 0. -/
def cfgZeroBatch : AirdropConfig :=
  { mint := 0, authorityKeypair := 0
    recipients := [⟨1, 5⟩]
    batchSize := some 0, useCompression := false }

/-- A campaign with a negative batch size. -/
def cfgNegBatch : AirdropConfig :=
  { mint := 0, authorityKeypair := 0
    recipients := [⟨1, 5⟩]
    batchSize := some (-3), useCompression := false }

/-- A direct-mode campaign with two recipients and batch size 1 (two
batches). -/
def cfgTwoBatches : AirdropConfig :=
  { mint := 0, authorityKeypair := 0
    recipients := [⟨1, 5⟩, ⟨2, 7⟩]
    batchSize := some 1, useCompression := false }

/-! Helper lemmas about the batching loop. -/

/-- Concatenating the batches gives back the recipient list. -/
theorem chunksGo_flatten (B : Nat) (hB : 1 ≤ B) :
    ∀ (fuel : Nat) (l : List AirdropRecipient), l.length ≤ fuel →
      (chunksGo B fuel l).flatten = l := by
  intro fuel
  induction fuel with
  | zero =>
    intro l hl
    cases l with
    | nil => rfl
    | cons x xs => simp at hl
  | succ f ih =>
    intro l hl
    cases l with
    | nil => rfl
    | cons x xs =>
      have hlen : ((x :: xs).drop B).length ≤ f := by
        simp only [List.length_drop, List.length_cons]
        simp only [List.length_cons] at hl
        omega
      simp only [chunksGo, List.flatten_cons, ih _ hlen, List.take_append_drop]

/-- Arithmetic step of the batch count: removing one full batch from a
nonempty list lowers the ceiling by one. -/
theorem ceil_step (B N : Nat) (hB : 1 ≤ B) (hN : 1 ≤ N) :
    (N - B + B - 1) / B + 1 = (N + B - 1) / B := by
  have h1 : N + B - 1 = (N - 1) + B := by omega
  rw [h1, Nat.add_div_right _ (show 0 < B by omega)]
  rcases le_or_lt B N with hc | hc
  · have h2 : N - B + B - 1 = N - 1 := by omega
    rw [h2]
  · have h0 : N - B = 0 := by omega
    rw [h0, Nat.div_eq_of_lt (show 0 + B - 1 < B by omega),
      Nat.div_eq_of_lt (show N - 1 < B by omega)]

/-- The number of batches is the ceiling of `length / B`. -/
theorem chunksGo_length (B : Nat) (hB : 1 ≤ B) :
    ∀ (fuel : Nat) (l : List AirdropRecipient), l.length ≤ fuel →
      (chunksGo B fuel l).length = (l.length + B - 1) / B := by
  intro fuel
  induction fuel with
  | zero =>
    intro l hl
    cases l with
    | nil => simp [chunksGo, Nat.div_eq_of_lt (show B - 1 < B by omega)]
    | cons x xs => simp at hl
  | succ f ih =>
    intro l hl
    cases l with
    | nil => simp [chunksGo, Nat.div_eq_of_lt (show B - 1 < B by omega)]
    | cons x xs =>
      have hlen : ((x :: xs).drop B).length ≤ f := by
        simp only [List.length_drop, List.length_cons]
        simp only [List.length_cons] at hl
        omega
      simp only [chunksGo, List.length_cons, ih _ hlen, List.length_drop]
      exact ceil_step B (xs.length + 1) hB (by omega)

/-- Every element of a batch comes from the original list. -/
theorem chunksGo_mem (B : Nat) :
    ∀ (fuel : Nat) (l b : List AirdropRecipient), b ∈ chunksGo B fuel l →
      ∀ x ∈ b, x ∈ l := by
  intro fuel
  induction fuel with
  | zero =>
    intro l b hb x hx
    cases l with
    | nil => simp [chunksGo] at hb
    | cons y ys => simp [chunksGo] at hb
  | succ f ih =>
    intro l b hb x hx
    cases l with
    | nil => simp [chunksGo] at hb
    | cons y ys =>
      simp only [chunksGo, List.mem_cons] at hb
      rcases hb with hb | hb
      · subst hb; exact List.mem_of_mem_take hx
      · exact List.mem_of_mem_drop (ih _ _ hb x hx)

/-- No batch is empty when the batch size is positive. -/
theorem chunksGo_ne_nil (B : Nat) (hB : 1 ≤ B) :
    ∀ (fuel : Nat) (l b : List AirdropRecipient), b ∈ chunksGo B fuel l →
      b ≠ [] := by
  intro fuel
  induction fuel with
  | zero =>
    intro l b hb
    cases l with
    | nil => simp [chunksGo] at hb
    | cons y ys => simp [chunksGo] at hb
  | succ f ih =>
    intro l b hb
    cases l with
    | nil => simp [chunksGo] at hb
    | cons y ys =>
      simp only [chunksGo, List.mem_cons] at hb
      rcases hb with hb | hb
      · subst hb
        intro hcon
        rw [List.take_eq_nil_iff] at hcon
        rcases hcon with h | h
        · omega
        · cases h
      · exact ih _ _ hb

/-- Every batch except possibly the last has exactly `B` recipients. -/
theorem chunksGo_dropLast_length (B : Nat) (hB : 1 ≤ B) :
    ∀ (fuel : Nat) (l : List AirdropRecipient), l.length ≤ fuel →
      ∀ b ∈ (chunksGo B fuel l).dropLast, b.length = B := by
  intro fuel
  induction fuel with
  | zero =>
    intro l hl b hb
    cases l with
    | nil => simp [chunksGo] at hb
    | cons x xs => simp at hl
  | succ f ih =>
    intro l hl b hb
    cases l with
    | nil => simp [chunksGo] at hb
    | cons x xs =>
      by_cases hd : (x :: xs).drop B = []
      · simp [chunksGo, hd] at hb
      · have hlen : ((x :: xs).drop B).length ≤ f := by
          simp only [List.length_drop, List.length_cons]
          simp only [List.length_cons] at hl
          omega
        have hfpos : 1 ≤ f := by
          have := List.length_pos.mpr hd
          omega
        obtain ⟨y, ys, hys⟩ := List.exists_cons_of_ne_nil hd
        obtain ⟨f2, rfl⟩ : ∃ f2, f = f2 + 1 := ⟨f - 1, by omega⟩
        simp only [chunksGo] at hb
        rw [hys] at hb
        simp only [chunksGo, List.dropLast_cons₂, List.mem_cons] at hb
        rcases hb with hb | hb
        · subst hb
          have hBlt : B < (x :: xs).length := by
            have := List.length_pos.mpr hd
            simp only [List.length_drop] at this
            omega
          simp only [List.length_take]
          omega
        · have := ih ((x :: xs).drop B) hlen b
          rw [hys] at this
          simp only [chunksGo] at this
          exact this hb

/-- The last batch has `length % B` recipients, or `B` when `B` divides the
length. -/
theorem chunksGo_getLast (B : Nat) (hB : 1 ≤ B) :
    ∀ (fuel : Nat) (l : List AirdropRecipient), l.length ≤ fuel → l ≠ [] →
      ∃ lb, (chunksGo B fuel l).getLast? = some lb ∧
        lb.length = if l.length % B = 0 then B else l.length % B := by
  intro fuel
  induction fuel with
  | zero =>
    intro l hl hne
    cases l with
    | nil => exact absurd rfl hne
    | cons x xs => simp at hl
  | succ f ih =>
    intro l hl hne
    cases l with
    | nil => exact absurd rfl hne
    | cons x xs =>
      by_cases hd : (x :: xs).drop B = []
      · refine ⟨(x :: xs).take B, ?_, ?_⟩
        · simp [chunksGo, hd]
        · have hNB : (x :: xs).length ≤ B := by
            have := congrArg List.length hd
            simp only [List.length_drop, List.length_nil] at this
            omega
          have hN1 : 1 ≤ (x :: xs).length := by simp
          rcases Nat.lt_or_ge (x :: xs).length B with hc | hc
          · rw [Nat.mod_eq_of_lt hc, if_neg (by omega)]
            simp only [List.length_take]
            omega
          · have hEq : (x :: xs).length = B := by omega
            rw [hEq, Nat.mod_self, if_pos rfl]
            simp only [List.length_take]
            omega
      · have hlen : ((x :: xs).drop B).length ≤ f := by
          simp only [List.length_drop, List.length_cons]
          simp only [List.length_cons] at hl
          omega
        obtain ⟨lb, hlb, hlblen⟩ := ih ((x :: xs).drop B) hlen hd
        have hrest_ne : chunksGo B f ((x :: xs).drop B) ≠ [] := by
          intro hcon
          rw [hcon] at hlb
          cases hlb
        obtain ⟨c, cs, hcs⟩ := List.exists_cons_of_ne_nil hrest_ne
        refine ⟨lb, ?_, ?_⟩
        · simp only [chunksGo]
          rw [hcs, List.getLast?_cons_cons, ← hcs]
          exact hlb
        · have hBle : B ≤ (x :: xs).length := by
            have := List.length_pos.mpr hd
            simp only [List.length_drop] at this
            omega
          rw [hlblen]
          simp only [List.length_drop]
          rw [← Nat.mod_eq_sub_mod hBle]

/-- `chunksOf` versions of the batching lemmas. -/
theorem chunksOf_flatten (B : Nat) (l : List AirdropRecipient) (hB : 1 ≤ B) :
    (chunksOf B l).flatten = l :=
  chunksGo_flatten B hB l.length l (Nat.le_refl _)

/-- Number of batches of `chunksOf`. -/
theorem chunksOf_length (B : Nat) (l : List AirdropRecipient) (hB : 1 ≤ B) :
    (chunksOf B l).length = (l.length + B - 1) / B :=
  chunksGo_length B hB l.length l (Nat.le_refl _)

/-- Batch members of `chunksOf` come from the input list. -/
theorem chunksOf_mem (B : Nat) (l b : List AirdropRecipient)
    (hb : b ∈ chunksOf B l) : ∀ x ∈ b, x ∈ l :=
  chunksGo_mem B l.length l b hb

/-- Batches of `chunksOf` are nonempty for positive `B`. -/
theorem chunksOf_ne_nil (B : Nat) (l b : List AirdropRecipient) (hB : 1 ≤ B)
    (hb : b ∈ chunksOf B l) : b ≠ [] :=
  chunksGo_ne_nil B hB l.length l b hb

/-- All batches of `chunksOf` except possibly the last have length `B`. -/
theorem chunksOf_dropLast_length (B : Nat) (l : List AirdropRecipient)
    (hB : 1 ≤ B) : ∀ b ∈ (chunksOf B l).dropLast, b.length = B :=
  chunksGo_dropLast_length B hB l.length l (Nat.le_refl _)

/-- Last batch length of `chunksOf`. -/
theorem chunksOf_getLast (B : Nat) (l : List AirdropRecipient) (hB : 1 ≤ B)
    (hne : l ≠ []) :
    ∃ lb, (chunksOf B l).getLast? = some lb ∧
      lb.length = if l.length % B = 0 then B else l.length % B :=
  chunksGo_getLast B hB l.length l (Nat.le_refl _) hne

/-- A positive configured batch size (or none at all) makes the effective
batch size positive. -/
theorem effectiveBatchSize_pos (c : AirdropConfig)
    (hB : ∀ b, c.batchSize = some b → 1 ≤ b) :
    1 ≤ (effectiveBatchSize c).toNat := by
  cases hc : c.batchSize with
  | none => simp [effectiveBatchSize, hc]
  | some b =>
    have hb := hB b hc
    simp only [effectiveBatchSize, hc]
    rw [if_neg (show ¬ b = 0 by omega)]
    omega

/-- One batch step always succeeds and yields one outcome per batch member
when the RPC handle is present whenever compression is on. -/
theorem processBatch_ok (a : PrivateAirdrop) (tD tC : TransferFn)
    (hc : a.config.useCompression = true → a.lightRpc.isSome = true)
    (b : List AirdropRecipient) :
    processBatch a tD tC b =
      .ok (b.map (fun r => outcomeOf r (activeTransfer a tD tC r))) := by
  unfold processBatch activeTransfer
  cases hcomp : a.config.useCompression with
  | false => simp [processStandardBatch]
  | true =>
    obtain ⟨rp, hrp⟩ := Option.isSome_iff_exists.mp (hc hcomp)
    simp [hrp, processCompressedBatch]

/-- The batch loop succeeds and produces the per-recipient outcomes of the
flattened batch list, in order. -/
theorem runBatches_ok_of_compat (a : PrivateAirdrop) (tD tC : TransferFn)
    (hc : a.config.useCompression = true → a.lightRpc.isSome = true) :
    ∀ bs, runBatches a tD tC bs =
      .ok (bs.flatten.map (fun r => outcomeOf r (activeTransfer a tD tC r))) := by
  intro bs
  induction bs with
  | nil => rfl
  | cons b bs ih =>
    simp [runBatches, processBatch_ok a tD tC hc, ih]

/-- Conversely, whatever outcome list the batch loop returns is the
per-recipient outcome list of the flattened batches. -/
theorem runBatches_ok_inv (a : PrivateAirdrop) (tD tC : TransferFn) :
    ∀ bs rs, runBatches a tD tC bs = .ok rs →
      rs = bs.flatten.map (fun r => outcomeOf r (activeTransfer a tD tC r)) := by
  intro bs
  induction bs with
  | nil =>
    intro rs h
    simp only [runBatches] at h
    cases h
    rfl
  | cons b bs ih =>
    intro rs h
    simp only [runBatches] at h
    cases hpb : processBatch a tD tC b with
    | error e => rw [hpb] at h; cases h
    | ok v =>
      rw [hpb] at h
      cases hrb : runBatches a tD tC bs with
      | error e => rw [hrb] at h; cases h
      | ok rest =>
        rw [hrb] at h
        cases h
        have hv : v = b.map (fun r => outcomeOf r (activeTransfer a tD tC r)) := by
          unfold processBatch at hpb
          unfold activeTransfer
          cases hcomp : a.config.useCompression with
          | false =>
            rw [hcomp] at hpb
            simp only [Bool.false_eq_true, if_false] at hpb ⊢
            cases hpb
            rfl
          | true =>
            rw [hcomp] at hpb
            simp only [if_true] at hpb ⊢
            cases hrpc : a.lightRpc with
            | none => rw [hrpc] at hpb; cases hpb
            | some rp =>
              rw [hrpc] at hpb
              simp only [processCompressedBatch] at hpb
              cases hpb
              rfl
        rw [hv, ih rest hrb, List.flatten_cons, List.map_append]

/-- A run on a compatible `PrivateAirdrop` with positive effective batch size
succeeds with exactly the per-recipient outcomes of the active strategy. -/
theorem execute_eq_expected (a : PrivateAirdrop) (tD tC : TransferFn)
    (hc : a.config.useCompression = true → a.lightRpc.isSome = true)
    (hB : 1 ≤ (effectiveBatchSize a.config).toNat) :
    execute a tD tC = .ok (expectedResults a.config (activeTransfer a tD tC)) := by
  unfold execute expectedResults
  rw [runBatches_ok_of_compat a tD tC hc,
    chunksOf_flatten (effectiveBatchSize a.config).toNat a.config.recipients hB]

/-- In compressed mode the batch loop never consults the direct-transfer
strategy. -/
theorem runBatches_ignores_direct (a : PrivateAirdrop) (tD tD2 tC : TransferFn)
    (h : a.config.useCompression = true) :
    ∀ bs, runBatches a tD tC bs = runBatches a tD2 tC bs := by
  intro bs
  induction bs with
  | nil => rfl
  | cons b bs ih =>
    simp only [runBatches, processBatch, h, if_true, ih]

/-- In direct mode the current batch loop agrees with the earlier variant's
loop, which never throws. -/
theorem runBatches_eq_v1 (c : AirdropConfig) (rpc : Option Rpc)
    (tD tC : TransferFn) (h : c.useCompression = false) :
    ∀ bs, runBatches ⟨c, rpc⟩ tD tC bs = .ok (runBatchesV1 c tD bs) := by
  intro bs
  induction bs with
  | nil => rfl
  | cons b bs ih =>
    simp only [runBatches, runBatchesV1, processBatch, processBatchV1, h,
      Bool.false_eq_true, if_false, ih]

/-- The inter-batch pacing delay sits exactly between the traces of
consecutive batches. -/
theorem batchesTrace_eq_intercalate (c : AirdropConfig) :
    ∀ bs, batchesTrace c bs =
      List.intercalate [TraceEvent.delayMs 1000] (bs.map (batchTrace c)) := by
  intro bs
  induction bs with
  | nil => rfl
  | cons b bs ih =>
    cases bs with
    | nil => simp [batchesTrace, List.intercalate]
    | cons b2 bs2 =>
      simp only [batchesTrace, ih, List.map_cons, List.intercalate,
        List.intersperse_cons_cons, List.flatten_cons]
      simp

/-- The direct-mode batch trace contains no delay event. -/
theorem standardBatchTrace_no_delay (batch : List AirdropRecipient) :
    ∀ e ∈ standardBatchTrace batch, e.isDelay = false := by
  intro e he
  simp only [standardBatchTrace, List.mem_map] at he
  obtain ⟨r, _, rfl⟩ := he
  rfl

/-- The compressed per-recipient loop awaits a 500ms delay once per
recipient. -/
theorem compressedRecipientsTrace_count (batch : List AirdropRecipient) :
    (compressedRecipientsTrace batch).count (TraceEvent.delayMs 500)
      = batch.length := by
  induction batch with
  | nil => rfl
  | cons r rest ih =>
    simp [compressedRecipientsTrace, List.count_cons, ih]

/-- The compressed batch trace awaits a 500ms delay once per recipient. -/
theorem compressedBatchTrace_count (mint : Nat) (batch : List AirdropRecipient) :
    (compressedBatchTrace mint batch).count (TraceEvent.delayMs 500)
      = batch.length := by
  simp [compressedBatchTrace, List.count_cons, compressedRecipientsTrace_count]

/-! The claim theorems. -/

/-- C1: for every valid campaign config (non-empty recipients, every
configured batch size at least 1, pairwise-distinct addresses) and any
oracles, `execute()` succeeds with exactly one outcome per recipient, in
input order, the i-th outcome's recipient being the i-th input recipient's
address. -/
theorem c1_execute_outcomes_in_order
    (c : AirdropConfig) (rpc : Option Rpc) (tD tC : TransferFn)
    (hne : c.recipients ≠ [])
    (hB : ∀ b, c.batchSize = some b → 1 ≤ b)
    (hdist : (c.recipients.map (fun r => r.address)).Nodup)
    (hrpc : c.useCompression = true → rpc.isSome = true) :
    execute ⟨c, rpc⟩ tD tC
        = Except.ok (expectedResults c (activeTransfer ⟨c, rpc⟩ tD tC)) ∧
    (expectedResults c (activeTransfer ⟨c, rpc⟩ tD tC)).length
        = c.recipients.length ∧
    ∀ i : Nat,
      (expectedResults c (activeTransfer ⟨c, rpc⟩ tD tC))[i]?.map
          (fun o => o.recipient)
        = c.recipients[i]?.map (fun r => r.address) := by
  refine ⟨execute_eq_expected ⟨c, rpc⟩ tD tC hrpc (effectiveBatchSize_pos c hB),
    ?_, ?_⟩
  · simp [expectedResults]
  · intro i
    cases hi : c.recipients[i]? with
    | none => simp [expectedResults, List.getElem?_map, hi]
    | some r =>
      simp only [expectedResults, List.getElem?_map, hi, Option.map_some']
      cases ht : activeTransfer ⟨c, rpc⟩ tD tC r <;> simp [outcomeOf]

/-- Witness for C1 at a concrete three-recipient direct campaign. -/
theorem c1_witness :
    execute ⟨cfgDirect, none⟩ tAllOk tAllOk = Except.ok
        [⟨"sigOk", 1, 5, true, none⟩, ⟨"sigOk", 2, 7, true, none⟩,
         ⟨"sigOk", 3, 9, true, none⟩] ∧
    (expectedResults cfgDirect (activeTransfer ⟨cfgDirect, none⟩ tAllOk tAllOk))[1]?.map
        (fun o => o.recipient)
      = cfgDirect.recipients[1]?.map (fun r => r.address) := by
  have h := c1_execute_outcomes_in_order cfgDirect none tAllOk tAllOk
    (by decide) (fun b hb => by simp [cfgDirect] at hb; omega)
    (by decide) (by decide)
  exact ⟨h.1.trans (by rfl), h.2.2 1⟩

/-- C2: with a compatible construction, `execute()` never fails as a whole
for per-recipient transfer causes: every recipient gets exactly one outcome,
a failing transfer is recorded as a failed outcome for that recipient alone,
and each outcome depends only on that recipient's own transfer result, so
processing continues through all later recipients and batches. -/
theorem c2_failures_do_not_abort
    (c : AirdropConfig) (rpc : Option Rpc) (tD tC : TransferFn)
    (hB : ∀ b, c.batchSize = some b → 1 ≤ b)
    (hrpc : c.useCompression = true → rpc.isSome = true) :
    execute ⟨c, rpc⟩ tD tC
        = Except.ok (expectedResults c (activeTransfer ⟨c, rpc⟩ tD tC)) ∧
    (expectedResults c (activeTransfer ⟨c, rpc⟩ tD tC)).length
        = c.recipients.length ∧
    ∀ (i : Nat) (r : AirdropRecipient), c.recipients[i]? = some r →
      (expectedResults c (activeTransfer ⟨c, rpc⟩ tD tC))[i]?
          = some (outcomeOf r (activeTransfer ⟨c, rpc⟩ tD tC r)) ∧
      ∀ e, activeTransfer ⟨c, rpc⟩ tD tC r = Except.error e →
        (outcomeOf r (activeTransfer ⟨c, rpc⟩ tD tC r)).success = false ∧
        (outcomeOf r (activeTransfer ⟨c, rpc⟩ tD tC r)).error = some e := by
  refine ⟨execute_eq_expected ⟨c, rpc⟩ tD tC hrpc (effectiveBatchSize_pos c hB),
    ?_, ?_⟩
  · simp [expectedResults]
  · intro i r hi
    refine ⟨by simp [expectedResults, List.getElem?_map, hi], ?_⟩
    intro e he
    rw [he]
    simp [outcomeOf]

/-- Witness for C2: the middle recipient's transfer fails but the other two
still receive success outcomes. -/
theorem c2_witness :
    execute ⟨cfgDirect, none⟩ tFailAtTwo tAllOk = Except.ok
        [⟨"sigA", 1, 5, true, none⟩,
         ⟨"", 2, 7, false, some "InsufficientFunds"⟩,
         ⟨"sigA", 3, 9, true, none⟩] ∧
    (outcomeOf ⟨2, 7⟩ (activeTransfer ⟨cfgDirect, none⟩ tFailAtTwo tAllOk ⟨2, 7⟩)).success
      = false := by
  have h := c2_failures_do_not_abort cfgDirect none tFailAtTwo tAllOk
    (fun b hb => by simp [cfgDirect] at hb; omega) (by decide)
  refine ⟨h.1.trans (by rfl), ?_⟩
  exact ((h.2.2 1 ⟨2, 7⟩ rfl).2 "InsufficientFunds" rfl).1

/-- C3 as stated fails on the code: a configured batch size of 0 is falsy in
JS, so `if (config.batchSize && config.batchSize < 1)` skips the check and
validation succeeds instead of failing with `InvalidBatchSize`. -/
theorem c3_counterexample :
    cfgZeroBatch.batchSize = some 0 ∧ validate cfgZeroBatch = Except.ok () :=
  ⟨rfl, rfl⟩

/-- C3 (amended): for a config with nonempty recipients, `validate` fails
with `InvalidBatchSize` exactly when an explicit nonzero batch size below 1
— that is, a negative one — is configured; `batchSize = 0` is treated like
an absent batch size and passes the check. -/
theorem c3_amended_invalid_batch_size
    (c : AirdropConfig) (hne : c.recipients ≠ []) :
    validate c = Except.error ConfigError.invalidBatchSize ↔
      ∃ b, c.batchSize = some b ∧ b < 0 := by
  unfold validate
  rw [if_neg (fun h => hne (List.length_eq_zero.mp h))]
  by_cases hbc : batchSizeCheckFails c.batchSize
  · rw [if_pos hbc]
    constructor
    · intro _
      cases hb : c.batchSize with
      | none => rw [hb] at hbc; cases hbc
      | some b =>
        rw [hb] at hbc
        simp only [batchSizeCheckFails, Bool.and_eq_true, bne_iff_ne,
          decide_eq_true_eq] at hbc
        exact ⟨b, rfl, by omega⟩
    · intro _
      rfl
  · rw [if_neg hbc]
    constructor
    · intro h
      cases hfd : findDuplicate [] (c.recipients.map fun r => r.address) with
      | some a => rw [hfd] at h; cases h
      | none => rw [hfd] at h; cases h
    · rintro ⟨b, hb, hneg⟩
      exfalso
      apply hbc
      rw [hb]
      simp only [batchSizeCheckFails, Bool.and_eq_true, bne_iff_ne,
        decide_eq_true_eq]
      exact ⟨by omega, by omega⟩

/-- Witness for the amended C3: a batch size of -3 is rejected with
`InvalidBatchSize`. -/
theorem c3_witness :
    validate cfgNegBatch = Except.error ConfigError.invalidBatchSize :=
  (c3_amended_invalid_batch_size cfgNegBatch (by decide)).mpr
    ⟨-3, rfl, by decide⟩

/-- C4: for nonempty recipients and positive batch size, `execute` runs the
batch loop over `chunksOf`, whose batches concatenate back to the input in
order (consecutive and non-overlapping), number `ceil(N/B)`, all have length
`B` except possibly the last, and the last has length `N mod B` (or `B` when
`B` divides `N`). -/
theorem c4_partition
    (c : AirdropConfig) (rpc : Option Rpc) (tD tC : TransferFn)
    (hne : c.recipients ≠ [])
    (hB : ∀ b, c.batchSize = some b → 1 ≤ b) :
    execute ⟨c, rpc⟩ tD tC
        = runBatches ⟨c, rpc⟩ tD tC
            (chunksOf (effectiveBatchSize c).toNat c.recipients) ∧
    (chunksOf (effectiveBatchSize c).toNat c.recipients).flatten
        = c.recipients ∧
    (chunksOf (effectiveBatchSize c).toNat c.recipients).length
        = (c.recipients.length + (effectiveBatchSize c).toNat - 1)
            / (effectiveBatchSize c).toNat ∧
    (∀ b ∈ (chunksOf (effectiveBatchSize c).toNat c.recipients).dropLast,
        b.length = (effectiveBatchSize c).toNat) ∧
    ∃ lb, (chunksOf (effectiveBatchSize c).toNat c.recipients).getLast?
        = some lb ∧
      lb.length
        = if c.recipients.length % (effectiveBatchSize c).toNat = 0
          then (effectiveBatchSize c).toNat
          else c.recipients.length % (effectiveBatchSize c).toNat := by
  have hBpos := effectiveBatchSize_pos c hB
  exact ⟨rfl, chunksOf_flatten _ _ hBpos, chunksOf_length _ _ hBpos,
    chunksOf_dropLast_length _ _ hBpos, chunksOf_getLast _ _ hBpos hne⟩

/-- Witness for C4: five recipients with batch size 2 give three batches
that concatenate back to the input. -/
theorem c4_witness :
    (chunksOf (effectiveBatchSize cfgFive).toNat cfgFive.recipients).length = 3 ∧
    (chunksOf (effectiveBatchSize cfgFive).toNat cfgFive.recipients).flatten
      = cfgFive.recipients := by
  have h := c4_partition cfgFive none tAllOk tAllOk (by decide)
    (fun b hb => by simp [cfgFive] at hb; omega)
  exact ⟨h.2.2.1.trans (by rfl), h.2.1⟩

/-- C5: requesting compression without a Light Protocol RPC handle makes the
constructor throw once, before any transfer is attempted and with zero
outcomes produced; and in compressed mode a run's results never depend on
the direct-transfer strategy, so the Direct path is never silently
substituted. -/
theorem c5_compressed_requires_rpc
    (c : AirdropConfig) (tC tD tD2 : TransferFn)
    (hcomp : c.useCompression = true) :
    mkPrivateAirdrop c none
        = Except.error "Light Protocol RPC is required when useCompression is true" ∧
    ∀ rpc : Option Rpc, execute ⟨c, rpc⟩ tD tC = execute ⟨c, rpc⟩ tD2 tC := by
  constructor
  · simp [mkPrivateAirdrop, hcomp]
  · intro rpc
    unfold execute
    exact runBatches_ignores_direct ⟨c, rpc⟩ tD tD2 tC hcomp _

/-- Witness for C5 at a concrete compressed campaign. -/
theorem c5_witness :
    mkPrivateAirdrop cfgCompressedOne none
        = Except.error "Light Protocol RPC is required when useCompression is true" ∧
    execute ⟨cfgCompressedOne, some 0⟩ tFailAtTwo tAllOk
        = execute ⟨cfgCompressedOne, some 0⟩ tAllOk tAllOk :=
  ⟨(c5_compressed_requires_rpc cfgCompressedOne tAllOk tFailAtTwo tAllOk rfl).1,
   (c5_compressed_requires_rpc cfgCompressedOne tAllOk tFailAtTwo tAllOk rfl).2
     (some 0)⟩

/-- C6: the ensure-token-pool operation is idempotent against the modelled
backend: calling it twice for the same mint succeeds both times, the
backend's "already in use" error being mapped to success rather than
surfaced. -/
theorem c6_ensure_token_pool_idempotent (pools : List Nat) (mint : Nat) :
    (∃ v, (ensureTokenPoolRun pools mint).1 = Except.ok v) ∧
    ∃ w, (ensureTokenPoolRun (ensureTokenPoolRun pools mint).2 mint).1
        = Except.ok w := by
  have hinc : stringIncludes "account already in use" "already in use" = true := by
    decide
  have hmem : ∀ ps : List Nat, mint ∈ ps →
      (ensureTokenPoolRun ps mint).1 = Except.ok none := by
    intro ps hm
    simp [ensureTokenPoolRun, createTokenPoolBackend, hm, ensureTokenPool, hinc]
  have hstate : mint ∈ (ensureTokenPoolRun pools mint).2 := by
    by_cases h : mint ∈ pools <;>
      simp [ensureTokenPoolRun, createTokenPoolBackend, h]
  constructor
  · by_cases h : mint ∈ pools
    · exact ⟨none, hmem pools h⟩
    · refine ⟨some "poolCreationSignature", ?_⟩
      simp [ensureTokenPoolRun, createTokenPoolBackend, h, ensureTokenPool]
  · exact ⟨none, hmem _ hstate⟩

/-- C7: every outcome of a completed run carries a nonempty signature
exactly when it succeeded, and a failure reason exactly when it failed —
assuming, as on chain, that the strategies never return an empty signature
on success. -/
theorem c7_signature_iff_success
    (a : PrivateAirdrop) (tD tC : TransferFn) (rs : List AirdropResult)
    (hrun : execute a tD tC = Except.ok rs)
    (hD : ∀ r s, tD r = Except.ok s → s ≠ "")
    (hC : ∀ r s, tC r = Except.ok s → s ≠ "") :
    ∀ o ∈ rs, ((o.signature ≠ "") ↔ o.success = true) ∧
      (o.error.isSome = true ↔ o.success = false) := by
  intro o ho
  unfold execute at hrun
  have heq := runBatches_ok_inv a tD tC _ rs hrun
  rw [heq] at ho
  simp only [List.mem_map] at ho
  obtain ⟨r, hrmem, rfl⟩ := ho
  cases ht : activeTransfer a tD tC r with
  | ok s =>
    have hs : s ≠ "" := by
      unfold activeTransfer at ht
      by_cases hcomp : a.config.useCompression = true
      · rw [if_pos hcomp] at ht
        exact hC r s ht
      · rw [if_neg hcomp] at ht
        exact hD r s ht
    simp [outcomeOf, hs]
  | error e =>
    simp [outcomeOf]

/-- Witness for C7 at the failed outcome of a concrete mixed run. -/
theorem c7_witness :
    (((⟨"", 2, 7, false, some "InsufficientFunds"⟩ : AirdropResult).signature ≠ "")
        ↔ (⟨"", 2, 7, false, some "InsufficientFunds"⟩ : AirdropResult).success = true) ∧
    ((⟨"", 2, 7, false, some "InsufficientFunds"⟩ : AirdropResult).error.isSome = true
        ↔ (⟨"", 2, 7, false, some "InsufficientFunds"⟩ : AirdropResult).success = false) := by
  refine c7_signature_iff_success ⟨cfgDirect, none⟩ tFailAtTwo tAllOk
    [⟨"sigA", 1, 5, true, none⟩,
     ⟨"", 2, 7, false, some "InsufficientFunds"⟩,
     ⟨"sigA", 3, 9, true, none⟩]
    rfl ?_ ?_ _ (by decide)
  · intro r s h
    simp only [tFailAtTwo] at h
    split at h
    · cases h
    · cases h
      decide
  · intro r s h
    simp only [tAllOk] at h
    cases h
    decide

/-- C8 as stated fails on the code: in compressed mode a fixed 500ms delay
is awaited after every recipient, so a single-batch compressed run contains
a delay even though no further batches remain. -/
theorem c8_counterexample :
    executeTrace cfgCompressedOne
        = [TraceEvent.ensurePool 7, TraceEvent.transferAttempt 1 5,
           TraceEvent.delayMs 500] ∧
    (chunksOf (effectiveBatchSize cfgCompressedOne).toNat
        cfgCompressedOne.recipients).length = 1 :=
  ⟨rfl, rfl⟩

/-- C8 (amended): the inter-batch 1000ms pacing delay sits exactly between
consecutive batch traces (so it occurs after a batch iff further batches
remain); in Direct mode no delay occurs inside a batch; in Compressed mode
each batch additionally awaits the token-pool check once and a fixed 500ms
delay after every recipient. -/
theorem c8_amended_delays (c : AirdropConfig) :
    executeTrace c = List.intercalate [TraceEvent.delayMs 1000]
        ((chunksOf (effectiveBatchSize c).toNat c.recipients).map
          (batchTrace c)) ∧
    (c.useCompression = false →
      ∀ batch, ∀ e ∈ batchTrace c batch, e.isDelay = false) ∧
    (c.useCompression = true →
      ∀ batch, (batchTrace c batch).count (TraceEvent.delayMs 500)
        = batch.length) := by
  refine ⟨batchesTrace_eq_intercalate c _, ?_, ?_⟩
  · intro h batch e he
    rw [batchTrace, if_neg (by simp [h])] at he
    exact standardBatchTrace_no_delay batch e he
  · intro h batch
    rw [batchTrace, if_pos (by simp [h])]
    exact compressedBatchTrace_count c.mint batch

/-- Witness for the amended C8 at concrete direct and compressed campaigns. -/
theorem c8_witness :
    executeTrace cfgTwoBatches = List.intercalate [TraceEvent.delayMs 1000]
        ((chunksOf (effectiveBatchSize cfgTwoBatches).toNat
            cfgTwoBatches.recipients).map (batchTrace cfgTwoBatches)) ∧
    (TraceEvent.transferAttempt 1 5).isDelay = false ∧
    (batchTrace cfgCompressedOne [⟨1, 5⟩]).count (TraceEvent.delayMs 500) = 1 := by
  refine ⟨(c8_amended_delays cfgTwoBatches).1, ?_, ?_⟩
  · exact (c8_amended_delays cfgTwoBatches).2.1 rfl [⟨1, 5⟩]
      (TraceEvent.transferAttempt 1 5) (by decide)
  · have h := (c8_amended_delays cfgCompressedOne).2.2 rfl [⟨1, 5⟩]
    simpa using h

/-- C9: a batch size of 0 or an absent one yields the default effective
batch size 10; the run then succeeds with one outcome per recipient and all
batches nonempty. -/
theorem c9_default_batch_size
    (c : AirdropConfig) (rpc : Option Rpc) (tD tC : TransferFn)
    (hbs : c.batchSize = none ∨ c.batchSize = some 0)
    (hrpc : c.useCompression = true → rpc.isSome = true) :
    effectiveBatchSize c = 10 ∧
    execute ⟨c, rpc⟩ tD tC
        = Except.ok (expectedResults c (activeTransfer ⟨c, rpc⟩ tD tC)) ∧
    (expectedResults c (activeTransfer ⟨c, rpc⟩ tD tC)).length
        = c.recipients.length ∧
    ∀ b ∈ chunksOf (effectiveBatchSize c).toNat c.recipients, b ≠ [] := by
  have heff : effectiveBatchSize c = 10 := by
    rcases hbs with h | h <;> simp [effectiveBatchSize, h]
  have hBpos : 1 ≤ (effectiveBatchSize c).toNat := by
    rw [heff]
    decide
  refine ⟨heff, execute_eq_expected ⟨c, rpc⟩ tD tC hrpc hBpos, ?_, ?_⟩
  · simp [expectedResults]
  · intro b hb
    exact chunksOf_ne_nil _ _ b hBpos hb

/-- Witness for C9 at a concrete campaign with no configured batch size. -/
theorem c9_witness :
    effectiveBatchSize cfgNoBatchSize = 10 ∧
    execute ⟨cfgNoBatchSize, none⟩ tAllOk tAllOk
        = Except.ok [⟨"sigOk", 1, 5, true, none⟩, ⟨"sigOk", 2, 7, true, none⟩] := by
  have h := c9_default_batch_size cfgNoBatchSize none tAllOk tAllOk
    (Or.inl rfl) (by decide)
  exact ⟨h.1, h.2.1.trans (by rfl)⟩

/-- C10: with compression disabled, the current implementation and the
earlier variant return element-wise equal result lists for the same
recipients, batch size and per-recipient transfer results. -/
theorem c10_direct_mode_matches_earlier_variant
    (c : AirdropConfig) (rpc : Option Rpc) (tD tC : TransferFn)
    (hdir : c.useCompression = false)
    (hB : ∀ b, c.batchSize = some b → 1 ≤ b) :
    execute ⟨c, rpc⟩ tD tC = Except.ok (executeV1 c tD) := by
  unfold execute executeV1
  exact runBatches_eq_v1 c rpc tD tC hdir _

/-- Witness for C10 at a concrete three-recipient direct campaign with a
failing middle transfer. -/
theorem c10_witness :
    execute ⟨cfgDirect, none⟩ tFailAtTwo tAllOk
        = Except.ok (executeV1 cfgDirect tFailAtTwo) :=
  c10_direct_mode_matches_earlier_variant cfgDirect none tFailAtTwo tAllOk rfl
    (fun b hb => by simp [cfgDirect] at hb; omega)

end Arbor
